import Mathlib

/-!
Shallow embedding of the post-composition core of `buster/application/poster.py`
(the pourover feed-to-post pipeline).  Python unicode strings are modelled as
`List Char`; numeric lengths are exact (`Nat`/`Int`); fallible code returns
`Except Unit` (an `error` models an uncaught Python exception); the external
collaborators (network fetch, HTML parsing by BeautifulSoup, sentence
splitting, URL shortening) are modelled by passing their already-produced
results as explicit inputs, as the spec declares them out of scope.
-/

deriving instance DecidableEq for Except

namespace Pourover

/-- Python unicode strings are sequences of characters. -/
abbrev Str := List Char

/-- Character list of a Lean string literal (concrete test data only). -/
def str (s : String) : Str := s.data

/-- Python truthiness of an optional string: `None` and `''` are falsy. -/
def pyTruthy : Option Str → Bool
  | none => false
  | some s => !s.isEmpty

/-- Python slice `t[a:b]` (clamping semantics of CPython slices). -/
def pySlice (t : Str) (a b : Nat) : Str := (t.drop a).take (b - a)

/-- Python `t.find(sub, start)`: smallest index `i ≥ start` where `sub`
occurs in `t`, as `some i`; `none` models the `-1` result. -/
def findFrom (t sub : Str) (start : Nat) : Option Nat :=
  (List.range (t.length + 1)).find? (fun i => decide (start ≤ i) && sub.isPrefixOf (t.drop i))

/-- Index of the last space of `t`, if any. -/
def lastSpaceIdx (t : Str) : Option Nat :=
  match t.reverse.findIdx? (fun c => c == ' ') with
  | none => none
  | some i => some (t.length - 1 - i)

/-- Longest prefix of at most `n` characters cut back to the last word
boundary (the last space) inside it, if one exists. -/
def truncAtWord (s : Str) (n : Nat) : Str :=
  let t := s.take n
  match lastSpaceIdx t with
  | some i => t.take i
  | none => t

/-- Modelled from the spec: `ellipse_text` lives in the repository's `utils`
module, which is not under `src/` (only its import and call sites are).  The
spec says the text is truncated to the character budget, preserving word
boundaries, with an ellipsis marker appended when truncation occurs
(`ellipse_text(link, 40)` is "the link truncated to a fixed display width"). -/
def ellipse_text (s : Str) (maxChars : Nat) : Str :=
  if s.length ≤ maxChars then s else truncAtWord s (maxChars - 1) ++ ['…']

/-- The `while` loop of `format_for_adn` lines 745-752: starting from the
first sentence, pop remaining sentences in order; a popped sentence is
appended (with a joining space) only when the combined length stays ≤ 200;
the loop guard re-checks `len(summary_text) <= 200` before every pop. -/
def accumSentences : Str → List Str → Str
  | acc, [] => acc
  | acc, s :: rest =>
    if 200 < acc.length then acc
    else if (acc ++ ' ' :: s).length ≤ 200 then accumSentences (acc ++ ' ' :: s) rest
    else accumSentences acc rest

/-- Summary stage of `format_for_adn` (lines 740-754) on the sentence list
produced by the external splitter on the HTML-stripped summary.  An empty
sentence list makes the unguarded first `sentances.pop()` raise `IndexError`,
modelled as `none`. -/
def buildSummary : List Str → Option Str
  | [] => none
  | s :: rest => some (ellipse_text (accumSentences s rest) 200)

/-- The per-network formatting modes used by `format_for_adn`. -/
inductive FORMAT_MODE where
  | TITLE_ONLY
  | TITLE_THEN_LINK
deriving DecidableEq

/-- The feed fields read or written by the embedded functions. -/
structure Feed where
  feed_url : Option Str
  linked_list_mode : Bool
  include_summary : Bool
  format_mode : FORMAT_MODE
  last_image_hash : Option Str
deriving DecidableEq

/-- The entry fields read by `format_for_adn`.  `summarySentences` stands for
`list(splitter.split(strip_html_tags(entry.summary)))`: both `strip_html_tags`
(missing `utils` module) and the sentence splitter are external collaborators,
so their combined output is taken as the input. -/
structure Entry where
  title : Str
  summarySentences : List Str
deriving DecidableEq

/-- A `{url, text, pos, len}` link entity as emitted by `format_for_adn`. -/
structure LinkEntity where
  url : Str
  text : Str
  pos : Nat
  len : Nat
deriving DecidableEq

/-- The post payload fields that the claims are about: the final text and the
`entities.links` list (`[]` models the absent `entities` key, matching the
`post.get('entities', {}).get('links', [])` default in the reconstructor).
The annotation assembly (lines 802-824) is not modelled: no claim concerns it. -/
structure Post where
  text : Str
  linkEntities : List LinkEntity
deriving DecidableEq

def MAX_CHARS : Nat := 256

/-- Effective character budget of `format_for_adn` (lines 767-773): the
network maximum, minus the room reserved for `' ' + ellipse_link_text` when
the mode appends the link.  The subtrahend is at most 41, so `Nat`
subtraction agrees with Python's integers here. -/
def maxCharsFor (feed : Feed) (link : Str) : Nat :=
  if feed.format_mode = FORMAT_MODE.TITLE_THEN_LINK
  then MAX_CHARS - (' ' :: ellipse_text link 40).length
  else MAX_CHARS

/-- Text pipeline of `format_for_adn` (lines 737-781), given the resolved
`link` (the value after `format_link_for_entry` and the optional bitly
shortening, both of which only transform the opaque URL string through
external collaborators and the missing `utils` module). -/
def composeText (feed : Feed) (entry : Entry) (link : Str) : Option Str :=
  match (if feed.include_summary then buildSummary entry.summarySentences else some []) with
  | none => none
  | some summary_text =>
    let mc := maxCharsFor feed link
    let body :=
      if entry.title.length < mc - 40 ∧ summary_text ≠ [] then entry.title ++ '\n' :: summary_text
      else entry.title
    let t := ellipse_text body mc
    some (if feed.format_mode = FORMAT_MODE.TITLE_THEN_LINK then t ++ ' ' :: ellipse_text link 40 else t)

/-- The single candidate `(href, link_text)` pair inserted at lines 783-786. -/
def linkCandidates (feed : Feed) (entry : Entry) (link : Str) : List (Str × Str) :=
  if feed.format_mode = FORMAT_MODE.TITLE_THEN_LINK then [(link, ellipse_text link 40)]
  else [(link, entry.title)]

/-- Entity scan of `format_for_adn` (lines 788-800): search each candidate's
display text from the running `index` (which the source sets to the *start*
of the previous hit), emit a `{url, text, pos, len}` entity on success, and
silently drop the candidate otherwise. -/
def scanEntities (text : Str) : Nat → List (Str × Str) → List LinkEntity
  | _, [] => []
  | index, (href, ltext) :: rest =>
    match findFrom text ltext index with
    | some ti => ⟨href, ltext, ti, ltext.length⟩ :: scanEntities text ti rest
    | none => scanEntities text index rest

/-- `format_for_adn` (lines 736-811), text and entity parts. -/
def format_for_adn (feed : Feed) (entry : Entry) (link : Str) : Option Post :=
  match composeText feed entry link with
  | none => none
  | some t => some ⟨t, scanEntities t 0 (linkCandidates feed entry link)⟩

/-- Anchor HTML built by `link_builder` in `build_html_from_post`: note the
display text is re-sliced out of the post text, not taken from the entity. -/
def entityAnchor (post : Post) (e : LinkEntity) : Str :=
  str "<a href='" ++ e.url ++ str "' target='_blank'>" ++ pySlice post.text e.pos (e.pos + e.len) ++ str "</a>"

/-- Python dict insertion `m[k] = v` on an association list (last write wins). -/
def mapInsert (m : List ((Nat × Nat) × Str)) (k : Nat × Nat) (v : Str) : List ((Nat × Nat) × Str) :=
  if m.any (fun p => p.1 = k) then m.map (fun p => if p.1 = k then (k, v) else p) else m ++ [(k, v)]

/-- The `entity_map` of `build_html_from_post`, keyed by `(pos, len)`. -/
def buildEntityMap (post : Post) : List ((Nat × Nat) × Str) :=
  post.linkEntities.foldl (fun m e => mapInsert m (e.pos, e.len) (entityAnchor post e)) []

def mapGet (m : List ((Nat × Nat) × Str)) (k : Nat × Nat) : Str :=
  match m.find? (fun p => p.1 = k) with
  | some p => p.2
  | none => []

/-- Lexicographic order on `(pos, len)` keys, as Python's `sorted` on tuples. -/
def lexLe (a b : Nat × Nat) : Bool := a.1 < b.1 || (a.1 = b.1 && a.2 ≤ b.2)

def insertKey (k : Nat × Nat) : List (Nat × Nat) → List (Nat × Nat)
  | [] => [k]
  | x :: xs => if lexLe k x then k :: x :: xs else x :: insertKey k xs

/-- `sorted(entity_map.keys())` (keys are distinct, so stability is moot). -/
def sortKeys (ks : List (Nat × Nat)) : List (Nat × Nat) := ks.foldr insertKey []

/-- The piece-assembly loop of `build_html_from_post`: gap text before each
entity (skipped when the cursor already sits at the entity start), the
entity HTML, then the trailing text after the last entity. -/
def htmlPieces (text : Str) (emap : List ((Nat × Nat) × Str)) : Nat → List (Nat × Nat) → Str
  | idx, [] => text.drop idx
  | idx, (s, l) :: ks =>
    (if idx ≠ s then pySlice text idx s else []) ++ mapGet emap (s, l) ++ htmlPieces text emap (s + l) ks

/-- `html.replace('\n', '<br>')`. -/
def nlToBr (s : Str) : Str := s.flatMap (fun c => if c = '\n' then str "<br>" else [c])

/-- `build_html_from_post` (lines 120-153): assemble pieces, convert newlines
to `<br>` over the whole joined string, wrap in a single `<span>`. -/
def build_html_from_post (post : Post) : Str :=
  str "<span>" ++
    nlToBr (htmlPieces post.text (buildEntityMap post) 0 (sortKeys ((buildEntityMap post).map Prod.fst))) ++
    str "</span>"

/-- An alternate link record of a feed item (`item['links']` entries). -/
structure AltLink where
  href : Option Str
deriving DecidableEq

/-- An anchor tag found by `BeautifulSoup(item['summary']).findAll('a')`.
The HTML parse itself is the external BeautifulSoup collaborator, so the item
carries the parsed anchor list; `rel` is multi-valued as in bs4. -/
structure Anchor where
  href : Option Str
  rel : List Str
deriving DecidableEq

/-- The item fields read by `get_link_for_item`. -/
structure Item where
  link : Option Str
  links : List AltLink
  summaryAnchors : List Anchor
deriving DecidableEq

def isSchemeChar (c : Char) : Bool := c.isAlpha || c.isDigit || c = '+' || c = '-' || c = '.'

/-- Strip a leading `scheme:` as Python's `urlsplit` does. -/
def splitScheme (u : Str) : Str :=
  match u.findIdx? (fun c => c == ':') with
  | none => u
  | some i =>
    let sch := u.take i
    if sch ≠ [] && sch.all isSchemeChar && (match u.head? with | some c => c.isAlpha | none => false)
    then u.drop (i + 1) else u

/-- `urlparse(u).netloc`: the authority component after `//`, empty when the
URL has no authority (faithful to `urlsplit` for absolute http(s) URLs). -/
def netloc (u : Str) : Str :=
  let rest := splitScheme u
  if (str "//").isPrefixOf rest
  then (rest.drop 2).takeWhile (fun c => !(c = '/' || c = '?' || c = '#'))
  else []

/-- Candidate-link selection of `get_link_for_item` (lines 157-165): the
direct `item.link` when truthy, else the loop over alternate links, which
reassigns on every truthy href without breaking (so the last one sticks). -/
def mainItemLink (item : Item) : Option Str :=
  if pyTruthy item.link then item.link
  else item.links.foldl (fun acc l => if pyTruthy l.href then l.href else acc) item.link

def findRel (anchors : List Anchor) (r : Str) : Option Anchor :=
  anchors.find? (fun a => a.rel.contains r)

/-- Last-ditch branch of `get_link_for_item` (lines 221-232): take the last
anchor of the summary; `urlparse(None)` raises when it has no href (`error`). -/
def lastAnchorStep (fnl : Str) (m : Str) (anchors : List Anchor) : Except Unit (Option Str) :=
  match anchors.getLast? with
  | none => .ok (some m)
  | some a =>
    match a.href with
    | none => .error ()
    | some h => if netloc h = fnl then .ok (some h) else .ok (some m)

/-- `rel="bookmark"` branch (lines 214-219): falls through when the matching
anchor has a falsy href. -/
def bookmarkStep (fnl : Str) (m : Str) (anchors : List Anchor) : Except Unit (Option Str) :=
  match findRel anchors (str "bookmark") with
  | some a => if pyTruthy a.href then .ok a.href else lastAnchorStep fnl m anchors
  | none => lastAnchorStep fnl m anchors

/-- Summary-anchor fallback of `get_link_for_item` (lines 199-232). -/
def contentLinkStep (fnl : Str) (m : Str) (anchors : List Anchor) : Except Unit (Option Str) :=
  if anchors.isEmpty then .ok (some m)
  else
    match findRel anchors (str "permalink") with
    | some a => if pyTruthy a.href then .ok a.href else bookmarkStep fnl m anchors
    | none => bookmarkStep fnl m anchors

/-- `get_link_for_item` (lines 156-232).  `.error ()` models an uncaught
`AttributeError` from `urlparse(None)` (the candidate may be `None` when the
item has no usable link, and the last summary anchor may lack an href). -/
def get_link_for_item (feed : Feed) (item : Item) : Except Unit (Option Str) :=
  if feed.linked_list_mode = false then .ok (mainItemLink item)
  else if pyTruthy feed.feed_url = false then .ok (mainItemLink item)
  else
    match mainItemLink item with
    | none => .error ()
    | some ml =>
      if netloc ml = netloc (feed.feed_url.getD []) then .ok (some ml)
      else
        match item.links.find?
            (fun l => pyTruthy l.href && netloc (l.href.getD []) == netloc (feed.feed_url.getD [])) with
        | some l => .ok l.href
        | none => contentLinkStep (netloc (feed.feed_url.getD [])) ml item.summaryAnchors

def MIN_IMAGE_DIMENSION : Int := 200
def MAX_IMAGE_DIMENSION : Int := 1000

/-- `image_fits` (lines 266-267): `all([w, h, w >= 200, w <= 1000, h >= 200,
h <= 1000])`, the first two conjuncts being integer truthiness. -/
def image_fits (w h : Int) : Bool :=
  decide (w ≠ 0) && decide (h ≠ 0) &&
  decide (MIN_IMAGE_DIMENSION ≤ w) && decide (w ≤ MAX_IMAGE_DIMENSION) &&
  decide (MIN_IMAGE_DIMENSION ≤ h) && decide (h ≤ MAX_IMAGE_DIMENSION)

/-- The `image_dict` payload `{thumbnail_image_url/width/height}`. -/
structure ImageDict where
  url : Str
  width : Int
  height : Int
deriving DecidableEq

def pyStrip (s : Str) : Str :=
  ((s.dropWhile Char.isWhitespace).reverse.dropWhile Char.isWhitespace).reverse

def digitsToNat (ds : Str) : Nat := ds.foldl (fun n c => 10 * n + (c.toNat - '0'.toNat)) 0

/-- Python `int(s)` on a string: optional surrounding whitespace, optional
sign, then a non-empty digit run; `none` models the `ValueError`. -/
def pyInt (s : Str) : Option Int :=
  match pyStrip s with
  | '-' :: ds => if ds ≠ [] && ds.all Char.isDigit then some (-(Int.ofNat (digitsToNat ds))) else none
  | '+' :: ds => if ds ≠ [] && ds.all Char.isDigit then some (Int.ofNat (digitsToNat ds)) else none
  | ds => if ds ≠ [] && ds.all Char.isDigit then some (Int.ofNat (digitsToNat ds)) else none

/-- Python `s.replace('px', '')`: remove every (non-overlapping, left-to-right)
occurrence of `px`. -/
def removePx : Str → Str
  | [] => []
  | 'p' :: 'x' :: rest => removePx rest
  | c :: rest => c :: removePx rest

/-- Python `s.split(c)` (keeps empty fields). -/
def splitOnChar (c : Char) : Str → List Str
  | [] => [[]]
  | x :: xs =>
    if x = c then [] :: splitOnChar c xs
    else
      match splitOnChar c xs with
      | [] => [[x]]
      | g :: gs => (x :: g) :: gs

/-- The dict comprehension of `parse_style_tag`: each `;`-segment is split on
`:`; a segment with no `:` makes `x[1]` raise `IndexError` (`error`). -/
def parseStylePairs : List Str → Except Unit (List (Str × Str))
  | [] => .ok []
  | seg :: rest =>
    match splitOnChar ':' seg with
    | _ :: [] => .error ()
    | k :: v :: _ =>
      (match parseStylePairs rest with
       | .ok ps => .ok ((pyStrip k, pyStrip v) :: ps)
       | .error e => .error e)
    | [] => .error ()

/-- `parse_style_tag` (lines 28-36).  The empty list stands for every falsy
result (`None` input, empty string, empty dict). -/
def parse_style_tag (t : Option Str) : Except Unit (List (Str × Str)) :=
  match t with
  | none => .ok []
  | some s =>
    if s.isEmpty then .ok []
    else parseStylePairs (((splitOnChar ';' (pyStrip s)).map pyStrip).filter (fun x => !x.isEmpty))

/-- `style.get(k, dflt)` with dict semantics (duplicate keys: last wins). -/
def styleGet (ps : List (Str × Str)) (k : Str) (dflt : Option Str) : Option Str :=
  match ps.reverse.find? (fun p => p.1 == k) with
  | some p => some p.2
  | none => dflt

/-- An `<img>` tag as seen through BeautifulSoup: its `width`, `height`,
`style` and `src` attributes (absent attribute = `none`; the integer default
`0` of `image.get('width', 0)` is falsy exactly like an absent attribute). -/
structure ImgTag where
  width : Option Str
  height : Option Str
  style : Option Str
  src : Option Str
deriving DecidableEq

/-- Attribute/style resolution of `find_image_in_html` (lines 300-307): the
style dict is parsed only when the plain attributes are not both truthy. -/
def imgDims (img : ImgTag) : Except Unit (Option Str × Option Str) :=
  if pyTruthy img.width && pyTruthy img.height then .ok (img.width, img.height)
  else
    match parse_style_tag img.style with
    | .error e => .error e
    | .ok ps =>
      if ps.isEmpty then .ok (img.width, img.height)
      else .ok (styleGet ps (str "width") img.width, styleGet ps (str "height") img.height)

/-- `find_image_in_html` (lines 297-331) with `remote_fetch=False`, so the
trailing first-image download fallback is skipped.  `error` models an
uncaught exception (malformed style attribute, or `image['src']` raising
`KeyError` on a fitting image with no src). -/
def find_image_in_html : List ImgTag → Except Unit (Option ImageDict)
  | [] => .ok none
  | img :: rest =>
    match imgDims img with
    | .error e => .error e
    | .ok (w1, h1) =>
      if pyTruthy w1 && pyTruthy h1 then
        match pyInt (removePx (w1.getD [])), pyInt (removePx (h1.getD [])) with
        | some w, some h =>
          if image_fits w h then
            match img.src with
            | some s => .ok (some ⟨s, w, h⟩)
            | none => .error ()
          else find_image_in_html rest
        | _, _ => find_image_in_html rest
      else find_image_in_html rest

/-- A `media_thumbnail` descriptor on a feed item (`url` is present on every
descriptor the function returns; width/height attribute values are strings). -/
structure MediaThumbnail where
  url : Str
  width : Option Str
  height : Option Str
deriving DecidableEq

/-- `int(thumb.get('width', 0))`: the integer default for a missing key,
`int(...)` on the string otherwise (`none` models the `ValueError`). -/
def thumbDim : Option Str → Option Int
  | none => some 0
  | some s => pyInt s

/-- `find_image_in_rss_item` (lines 278-294) with `remote_fetch=False`, so
descriptors with missing dimensions are never resolved by download. -/
def find_image_in_rss_item : List MediaThumbnail → Except Unit (Option ImageDict)
  | [] => .ok none
  | t :: rest =>
    match thumbDim t.width, thumbDim t.height with
    | some w, some h =>
      if image_fits w h then .ok (some ⟨t.url, w, h⟩) else find_image_in_rss_item rest
    | _, _ => .error ()

/-- The `og`/`twitter` image value inside parsed meta tags: absent, a bare
URL string, or a nested dict carrying url/width/height (numeric values were
converted by `parse_meta_data`; a missing `width`/`height` key makes the
direct `['width']` access raise `KeyError`). -/
inductive MetaImage where
  | absent
  | bare (url : Str)
  | structured (url : Option Str) (width height : Option Int)
deriving DecidableEq

/-- `find_image_in_meta_tags` (lines 334-351) with `remote_fetch=False`: the
structured og/twitter branch returns `image_dict` directly, without any
`image_fits` validation; a bare URL would require the (disabled) fetch. -/
def find_image_in_meta_tags (og twitter : MetaImage) : Except Unit (Option ImageDict) :=
  let v := match og with
    | .absent => twitter
    | x => x
  match v with
  | .absent => .ok none
  | .bare _ => .ok none
  | .structured url w h =>
    if pyTruthy url then
      match w, h with
      | some wi, some hi => .ok (some ⟨url.getD [], wi, hi⟩)
      | _, _ => .error ()
    else .ok none

/-- The per-image body of the `parse_images` loop (lines 393-406): both
attributes (default `''`) must parse as `int` after `.replace('px', '')`,
the tag must have a truthy src, and the dimensions must fit. -/
def parseImageTag (img : ImgTag) : Option ImageDict :=
  match pyInt (removePx (img.width.getD [])), pyInt (removePx (img.height.getD [])) with
  | some w, some h =>
    (match img.src with
     | some s => if !s.isEmpty && image_fits w h then some ⟨s, w, h⟩ else none
     | none => none)
  | _, _ => none

def parseImagesGo : List ImgTag → List ImageDict
  | [] => []
  | img :: rest =>
    match parseImageTag img with
    | some d => d :: parseImagesGo rest
    | none => parseImagesGo rest

def insertBySize (d : ImageDict) : List ImageDict → List ImageDict
  | [] => [d]
  | x :: xs => if d.width + d.height ≤ x.width + x.height then d :: x :: xs else x :: insertBySize d xs

/-- The `sorted(images, key=lambda x: width + height)` expression of line
409, whose result the source discards. -/
def sortImagesBySize (ds : List ImageDict) : List ImageDict := ds.foldr insertBySize []

/-- `parse_images` (lines 391-411): collect valid images in document order;
the sort-by-size expression is evaluated and its value dropped. -/
def parse_images (imgs : List ImgTag) : List ImageDict :=
  let images := parseImagesGo imgs
  let _ := sortImagesBySize images
  images

/-- The `html` thumbnail source of `prepare_entry_from_item_remote` (lines
566-569): if the source is not blacklisted, no earlier source produced a
thumbnail, and the page's image list is truthy, take its first element. -/
def html_source_thumbnail (htmlBlacklisted : Bool) (thumbnail : Option ImageDict)
    (images_in_html : List ImageDict) : Option ImageDict :=
  if !htmlBlacklisted && thumbnail.isNone && !images_in_html.isEmpty
  then images_in_html.head?
  else thumbnail

/-- Modelled from the spec: `dict_hash` lives in the repository's `utils`
module, which is not under `src/`.  The spec calls the fingerprint "a
deterministic hash of the thumbnail's fields"; any deterministic function of
the fields realises that, here a field encoding. -/
def dict_hash (d : ImageDict) : Str :=
  d.url ++ '|' :: str (toString d.width) ++ '|' :: str (toString d.height)

/-- `check_thumbnail` (lines 458-466): compare the thumbnail's fingerprint
with the feed's stored one; on a difference store the new fingerprint and
accept, otherwise reject leaving the feed untouched.  The returned `Feed` is
the (possibly) mutated feed object. -/
def check_thumbnail (feed : Feed) (thumbnail : ImageDict) : Bool × Feed :=
  let h := dict_hash thumbnail
  if feed.last_image_hash ≠ some h then (true, { feed with last_image_hash := some h })
  else (false, feed)

/-- Spec-side reading of the `'px'` handling in `parse_images` ("after
stripping a `'px'` suffix"), for comparison with the source's
`.replace('px', '')`. -/
def stripPxSuffixSpec (s : Str) : Str :=
  if (str "px").isSuffixOf s then s.take (s.length - 2) else s

/-- TITLE_ONLY feed with summaries disabled (concrete test data). -/
def exFeedTO : Feed := ⟨none, false, false, .TITLE_ONLY, none⟩

/-- TITLE_THEN_LINK feed with summaries disabled (concrete test data). -/
def exFeedTTL : Feed := ⟨none, false, false, .TITLE_THEN_LINK, none⟩

def exLink : Str := str "http://x.com/a"

def wEntryHW : Entry := ⟨str "Hello World", []⟩

def wPostHW : Post := ⟨str "Hello World", [⟨exLink, str "Hello World", 0, 11⟩]⟩

def wEntHW : LinkEntity := ⟨exLink, str "Hello World", 0, 11⟩

def wEntry1 : Entry := ⟨str "Hello", []⟩

def wPost1 : Post := ⟨str "Hello http://x.com/a", [⟨exLink, exLink, 6, 14⟩]⟩

def wEnt1 : LinkEntity := ⟨exLink, exLink, 6, 14⟩

def cexEntryA : Entry := ⟨List.replicate 300 'A', []⟩

def cexPostA : Post := ⟨List.replicate 240 'A' ++ '…' :: ' ' :: exLink, [⟨exLink, exLink, 242, 14⟩]⟩

def cexEntryB : Entry := ⟨exLink, []⟩

def cexPostB : Post := ⟨exLink ++ ' ' :: exLink, [⟨exLink, exLink, 0, 14⟩]⟩

def c3nEntry : Entry := ⟨str "a\nb", []⟩

def c3nPost : Post := ⟨str "a\nb", [⟨str "u", str "a\nb", 0, 3⟩]⟩

/-- TITLE_ONLY feed with summary inclusion enabled (concrete test data). -/
def exFeedTOsum : Feed := ⟨none, false, true, .TITLE_ONLY, none⟩

def w9Entry : Entry := ⟨str "Hi", [str "Short sentence."]⟩

def w9Post : Post := ⟨str "Hi\nShort sentence.", [⟨str "l", str "Hi", 0, 2⟩]⟩

def c9Entry : Entry := ⟨List.replicate 50 'a', [List.replicate 200 'b']⟩

def c6Item : Item := ⟨none, [⟨some (str "http://a.com/1")⟩, ⟨some (str "http://b.com/2")⟩], []⟩

def c7Feed : Feed := ⟨some (str "http://b.com"), true, false, .TITLE_ONLY, none⟩

def c7Item : Item := ⟨none, [], []⟩

def c5Thumb : ImageDict := ⟨str "http://i.com/t.png", 500, 500⟩

def c10BigImg : ImgTag := ⟨some (str "900"), some (str "900"), none, some (str "http://big")⟩

def c10SmallImg : ImgTag := ⟨some (str "300"), some (str "200px"), none, some (str "http://small")⟩

def c10BigDict : ImageDict := ⟨str "http://big", 900, 900⟩

def c10SmallDict : ImageDict := ⟨str "http://small", 300, 200⟩

def c10PxImg : ImgTag := ⟨some (str "2px00"), some (str "500"), none, some (str "http://i")⟩

theorem truncAtWord_length (s : Str) (n : Nat) : (truncAtWord s n).length ≤ n := by
  simp only [truncAtWord]
  split <;> simp [List.length_take]

theorem ellipse_text_length (s : Str) (m : Nat) (hm : 1 ≤ m) : (ellipse_text s m).length ≤ m := by
  unfold ellipse_text
  split
  · assumption
  · have h1 := truncAtWord_length s (m - 1)
    calc (truncAtWord s (m - 1) ++ ['…']).length
        = (truncAtWord s (m - 1)).length + 1 := by simp
      _ ≤ m := by omega

theorem ellipse_text_forty (link : Str) : (ellipse_text link 40).length ≤ 40 :=
  ellipse_text_length link 40 (by omega)

theorem findFrom_spec {t sub : Str} {start j : Nat} (h : findFrom t sub start = some j) :
    start ≤ j ∧ sub <+: t.drop j ∧ j ≤ t.length := by
  unfold findFrom at h
  have hp := List.find?_some h
  have hmem := List.mem_of_find?_eq_some h
  rw [List.mem_range] at hmem
  rw [Bool.and_eq_true, decide_eq_true_eq] at hp
  exact ⟨hp.1, List.isPrefixOf_iff_prefix.mp hp.2, by omega⟩

theorem slice_of_prefix {t sub : Str} {j : Nat} (h : sub <+: t.drop j) :
    pySlice t j (j + sub.length) = sub := by
  unfold pySlice
  rw [Nat.add_sub_cancel_left]
  exact (List.prefix_iff_eq_take.mp h).symm

theorem decomp_of_prefix {t sub : Str} {j : Nat} (h : sub <+: t.drop j) :
    t = t.take j ++ sub ++ t.drop (j + sub.length) := by
  obtain ⟨r, hr⟩ := h
  have h1 : t.drop (j + sub.length) = r := by
    rw [← List.drop_drop, ← hr, List.drop_left]
  rw [h1, List.append_assoc, hr, List.take_append_drop]

theorem nlToBr_append (a b : Str) : nlToBr (a ++ b) = nlToBr a ++ nlToBr b := by
  simp [nlToBr]

/-- Characterisation of `composeText` used throughout: the summary step, the
conditional body assembly, the ellipsis truncation, and the link suffix. -/
theorem composeText_eq {feed : Feed} {entry : Entry} {link : Str} {t : Str}
    (h : composeText feed entry link = some t) :
    ∃ st, (if feed.include_summary then buildSummary entry.summarySentences else some []) = some st ∧
      t = (if feed.format_mode = FORMAT_MODE.TITLE_THEN_LINK then
            ellipse_text (if entry.title.length < maxCharsFor feed link - 40 ∧ st ≠ [] then
                entry.title ++ '\n' :: st else entry.title) (maxCharsFor feed link)
              ++ ' ' :: ellipse_text link 40
          else
            ellipse_text (if entry.title.length < maxCharsFor feed link - 40 ∧ st ≠ [] then
                entry.title ++ '\n' :: st else entry.title) (maxCharsFor feed link)) := by
  unfold composeText at h
  split at h
  · exact absurd h (by simp)
  · rename_i st hst
    exact ⟨st, hst, by simpa using h.symm⟩

theorem maxCharsFor_ge (feed : Feed) (link : Str) : 215 ≤ maxCharsFor feed link := by
  unfold maxCharsFor
  have h := ellipse_text_forty link
  split
  · simp only [MAX_CHARS, List.length_cons]
    omega
  · simp [MAX_CHARS]

theorem parseImageTag_fits {img : ImgTag} {d : ImageDict}
    (h : parseImageTag img = some d) : image_fits d.width d.height = true := by
  unfold parseImageTag at h
  split at h
  · split at h
    · split at h
      · rename_i hcond
        cases h
        simpa using (Bool.and_eq_true ..).mp hcond |>.2
      · exact absurd h (by simp)
    · exact absurd h (by simp)
  · exact absurd h (by simp)

theorem parseImagesGo_fits {imgs : List ImgTag} {d : ImageDict}
    (h : d ∈ parseImagesGo imgs) : image_fits d.width d.height = true := by
  induction imgs with
  | nil => simp [parseImagesGo] at h
  | cons img rest ih =>
    rw [parseImagesGo] at h
    split at h
    · rename_i d' hd'
      rcases List.mem_cons.mp h with h1 | h1
      · subst h1; exact parseImageTag_fits hd'
      · exact ih h1
    · exact ih h

theorem find_image_in_rss_item_fits {ts : List MediaThumbnail} {d : ImageDict}
    (h : find_image_in_rss_item ts = .ok (some d)) : image_fits d.width d.height = true := by
  induction ts with
  | nil => simp [find_image_in_rss_item] at h
  | cons t rest ih =>
    rw [find_image_in_rss_item] at h
    split at h
    · rename_i w hgt hw hh
      split at h
      · rename_i hfit
        cases h
        simpa using hfit
      · exact ih h
    · exact absurd h (by simp)

theorem find_image_in_html_fits {imgs : List ImgTag} {d : ImageDict}
    (h : find_image_in_html imgs = .ok (some d)) : image_fits d.width d.height = true := by
  induction imgs with
  | nil => simp [find_image_in_html] at h
  | cons img rest ih =>
    rw [find_image_in_html] at h
    split at h
    · exact absurd h (by simp)
    · split at h
      · split at h
        · rename_i w h2 hw hh
          split at h
          · rename_i hfit
            split at h
            · cases h; simpa using hfit
            · exact absurd h (by simp)
          · exact ih h
        · exact ih h
      · exact ih h

/-- C4 (amended): the validation predicate `image_fits` accepts `(w, h)` iff
both dimensions lie in the inclusive range [200, 1000] (so presence/non-zero
is subsumed); width 150 is rejected regardless of height, (500, 2000) is
rejected, (500, 500) is accepted; and the rss, content and html thumbnail
sources only ever select candidates satisfying the predicate.  (The claim's
further clause that *no* source ever selects an out-of-range candidate fails
at the meta source's structured branch — see the counterexample.) -/
theorem c4_image_fits_amended :
    (∀ w h : Int, image_fits w h = true ↔
      (MIN_IMAGE_DIMENSION ≤ w ∧ w ≤ MAX_IMAGE_DIMENSION ∧
       MIN_IMAGE_DIMENSION ≤ h ∧ h ≤ MAX_IMAGE_DIMENSION)) ∧
    (∀ h : Int, image_fits 150 h = false) ∧
    image_fits 500 2000 = false ∧
    image_fits 500 500 = true ∧
    (∀ ts d, find_image_in_rss_item ts = .ok (some d) → image_fits d.width d.height = true) ∧
    (∀ imgs d, find_image_in_html imgs = .ok (some d) → image_fits d.width d.height = true) ∧
    (∀ imgs d, d ∈ parse_images imgs → image_fits d.width d.height = true) := by
  have hiff : ∀ w h : Int, image_fits w h = true ↔
      (MIN_IMAGE_DIMENSION ≤ w ∧ w ≤ MAX_IMAGE_DIMENSION ∧
       MIN_IMAGE_DIMENSION ≤ h ∧ h ≤ MAX_IMAGE_DIMENSION) := by
    intro w h
    simp only [image_fits, MIN_IMAGE_DIMENSION, MAX_IMAGE_DIMENSION,
      Bool.and_eq_true, decide_eq_true_eq]
    omega
  refine ⟨hiff, ?_, by decide, by decide, ?_, ?_, ?_⟩
  · intro h
    cases hb : image_fits 150 h with
    | false => rfl
    | true =>
      have := (hiff 150 h).mp hb
      simp [MIN_IMAGE_DIMENSION] at this
  · exact fun ts d h => find_image_in_rss_item_fits h
  · exact fun imgs d h => find_image_in_html_fits h
  · intro imgs d h
    simp only [parse_images] at h
    exact parseImagesGo_fits h

/-- C4 witness: the predicate accepts (500, 500) and rejects width 150, and a
concrete rss-source run returns a fitting thumbnail. -/
theorem c4_image_fits_witness :
    image_fits 500 500 = true ∧ image_fits 150 700 = false ∧
    image_fits c5Thumb.width c5Thumb.height = true :=
  ⟨(c4_image_fits_amended.1 500 500).mpr (by decide),
   c4_image_fits_amended.2.1 700,
   c4_image_fits_amended.2.2.2.2.1 [⟨str "http://i.com/t.png", some (str "500"), some (str "500")⟩]
     c5Thumb (by decide)⟩

/-- C4 counterexample: the meta thumbnail source (`find_image_in_meta_tags`)
selects a structured og image of 50×50, which the validation predicate
rejects — so the claim's "no candidate outside the range is ever selected by
any thumbnail source" is false on the code. -/
theorem c4_image_fits_counterexample :
    find_image_in_meta_tags (.structured (some (str "http://img")) (some 50) (some 50)) .absent
      = .ok (some ⟨str "http://img", 50, 50⟩) ∧
    image_fits 50 50 = false := by
  constructor
  · decide
  · decide

/-- C5: the change-detection gate `check_thumbnail` accepts exactly when the
thumbnail's fingerprint differs from the feed's stored one; on acceptance
the stored fingerprint (and nothing else) is overwritten, on rejection the
feed is returned untouched; and a second run of the gate on its own output
with the same thumbnail always rejects. -/
theorem c5_check_thumbnail : ∀ (feed : Feed) (thumb : ImageDict),
    ((check_thumbnail feed thumb).1 = true ↔ feed.last_image_hash ≠ some (dict_hash thumb)) ∧
    ((check_thumbnail feed thumb).1 = true →
      (check_thumbnail feed thumb).2 = { feed with last_image_hash := some (dict_hash thumb) }) ∧
    ((check_thumbnail feed thumb).1 = false → (check_thumbnail feed thumb).2 = feed) ∧
    (check_thumbnail feed thumb).2.feed_url = feed.feed_url ∧
    (check_thumbnail feed thumb).2.linked_list_mode = feed.linked_list_mode ∧
    (check_thumbnail feed thumb).2.include_summary = feed.include_summary ∧
    (check_thumbnail feed thumb).2.format_mode = feed.format_mode ∧
    check_thumbnail (check_thumbnail feed thumb).2 thumb = (false, (check_thumbnail feed thumb).2) := by
  intro feed thumb
  by_cases h : feed.last_image_hash = some (dict_hash thumb) <;>
    simp [check_thumbnail, h]

/-- C5 witness: a fresh feed accepts a concrete thumbnail, and the gate run
again on the updated feed with the same thumbnail rejects it. -/
theorem c5_check_thumbnail_witness :
    (check_thumbnail exFeedTO c5Thumb).1 = true ∧
    (check_thumbnail (check_thumbnail exFeedTO c5Thumb).2 c5Thumb).1 = false := by
  have h := c5_check_thumbnail exFeedTO c5Thumb
  refine ⟨h.1.mpr (by decide), ?_⟩
  rw [h.2.2.2.2.2.2.2]

theorem foldl_lastHref (links : List AltLink) (init : Option Str) :
    links.foldl (fun acc l => if pyTruthy l.href then l.href else acc) init =
      (match links.reverse.find? (fun x => pyTruthy x.href) with
       | some l => l.href
       | none => init) := by
  induction links generalizing init with
  | nil => simp
  | cons a rest ih =>
    simp only [List.foldl_cons, List.reverse_cons]
    rw [ih, List.find?_append]
    cases h : rest.reverse.find? (fun x => pyTruthy x.href) with
    | some l => simp [h]
    | none =>
      cases ha : pyTruthy a.href <;> simp [h, List.find?, ha]

/-- C6 (amended): when the item has no truthy direct link, the candidate is
the *last* alternate link with a non-empty href (the scan loop has no
break), and with linked-list mode off `get_link_for_item` returns exactly
that candidate. -/
theorem c6_candidate_amended :
    (∀ (feed : Feed) (item : Item), feed.linked_list_mode = false →
      get_link_for_item feed item = .ok (mainItemLink item)) ∧
    (∀ (item : Item) (l : AltLink), pyTruthy item.link = false →
      item.links.reverse.find? (fun x => pyTruthy x.href) = some l →
      mainItemLink item = l.href) := by
  constructor
  · intro feed item hmode
    simp [get_link_for_item, hmode]
  · intro item l hlink hfind
    simp [mainItemLink, hlink, foldl_lastHref, hfind]

/-- C6 witness: on an item with two truthy alternate hrefs the candidate is
the last one, as the amended claim states. -/
theorem c6_candidate_witness : mainItemLink c6Item = some (str "http://b.com/2") :=
  c6_candidate_amended.2 c6Item ⟨some (str "http://b.com/2")⟩ (by decide) (by decide)

/-- C6 counterexample: an item with no direct link and alternate hrefs
`http://a.com/1`, `http://b.com/2`: the first non-empty alternate href is
`http://a.com/1`, but the candidate (and the resolver's output with
linked-list mode off) is `http://b.com/2` — the claim as stated is false. -/
theorem c6_candidate_counterexample :
    pyTruthy c6Item.link = false ∧
    c6Item.links.find? (fun x => pyTruthy x.href) = some ⟨some (str "http://a.com/1")⟩ ∧
    mainItemLink c6Item = some (str "http://b.com/2") ∧
    (some (str "http://a.com/1") : Option Str) ≠ some (str "http://b.com/2") ∧
    get_link_for_item exFeedTO c6Item = .ok (some (str "http://b.com/2")) := by
  decide

theorem lastAnchorStep_ok (fnl m : Str) (anchors : List Anchor)
    (h : ∀ a ∈ anchors.getLast?, a.href ≠ none) :
    ∃ r, lastAnchorStep fnl m anchors = .ok r := by
  unfold lastAnchorStep
  cases hl : anchors.getLast? with
  | none => exact ⟨some m, rfl⟩
  | some a =>
    have ha := h a (by simp [hl])
    cases hh : a.href with
    | none => exact absurd hh ha
    | some s =>
      by_cases hn : netloc s = fnl
      · exact ⟨some s, by simp [hh, hn]⟩
      · exact ⟨some m, by simp [hh, hn]⟩

theorem bookmarkStep_ok (fnl m : Str) (anchors : List Anchor)
    (h : ∀ a ∈ anchors.getLast?, a.href ≠ none) :
    ∃ r, bookmarkStep fnl m anchors = .ok r := by
  unfold bookmarkStep
  cases hf : findRel anchors (str "bookmark") with
  | none => exact lastAnchorStep_ok fnl m anchors h
  | some a =>
    by_cases ht : pyTruthy a.href = true
    · exact ⟨a.href, by simp [ht]⟩
    · show ∃ r, (if pyTruthy a.href = true then Except.ok a.href
          else lastAnchorStep fnl m anchors) = Except.ok r
      rw [if_neg ht]
      exact lastAnchorStep_ok fnl m anchors h

theorem contentLinkStep_ok (fnl m : Str) (anchors : List Anchor)
    (h : ∀ a ∈ anchors.getLast?, a.href ≠ none) :
    ∃ r, contentLinkStep fnl m anchors = .ok r := by
  unfold contentLinkStep
  split
  · exact ⟨some m, rfl⟩
  · cases hf : findRel anchors (str "permalink") with
    | none => exact bookmarkStep_ok fnl m anchors h
    | some a =>
      by_cases ht : pyTruthy a.href = true
      · exact ⟨a.href, by simp [ht]⟩
      · show ∃ r, (if pyTruthy a.href = true then Except.ok a.href
            else bookmarkStep fnl m anchors) = Except.ok r
        rw [if_neg ht]
        exact bookmarkStep_ok fnl m anchors h

/-- C7 (amended): `get_link_for_item` returns without raising whenever
linked-list mode is off, or the feed URL is falsy, or the item has a
candidate link and the summary's last anchor (if any) carries an href; when
no usable link exists in those cases the candidate (possibly null) is
returned.  But with linked-list mode on and a truthy feed URL, an item with
no candidate link makes `urlparse(None)` raise — so "never raises" is false
as stated (see the counterexample). -/
theorem c7_raises_amended :
    (∀ (feed : Feed) (item : Item), feed.linked_list_mode = false →
      get_link_for_item feed item = .ok (mainItemLink item)) ∧
    (∀ (feed : Feed) (item : Item), pyTruthy feed.feed_url = false →
      get_link_for_item feed item = .ok (mainItemLink item)) ∧
    (∀ (feed : Feed) (item : Item), mainItemLink item ≠ none →
      (∀ a ∈ item.summaryAnchors.getLast?, a.href ≠ none) →
      ∃ r, get_link_for_item feed item = .ok r) ∧
    (∀ (feed : Feed) (item : Item), feed.linked_list_mode = true →
      pyTruthy feed.feed_url = true → mainItemLink item = none →
      get_link_for_item feed item = .error ()) := by
  refine ⟨?_, ?_, ?_, ?_⟩
  · intro feed item hmode
    simp [get_link_for_item, hmode]
  · intro feed item hurl
    by_cases hmode : feed.linked_list_mode = false <;>
      simp [get_link_for_item, hmode, hurl]
  · intro feed item hmain hanch
    unfold get_link_for_item
    split
    · exact ⟨mainItemLink item, rfl⟩
    · split
      · exact ⟨mainItemLink item, rfl⟩
      · cases hml : mainItemLink item with
        | none => exact absurd hml hmain
        | some ml =>
          by_cases hn : netloc ml = netloc (feed.feed_url.getD [])
          · exact ⟨some ml, by simp [hn]⟩
          · cases hfind : item.links.find?
                (fun l => pyTruthy l.href && netloc (l.href.getD []) == netloc (feed.feed_url.getD [])) with
            | some l => exact ⟨l.href, by simp [hn, hfind]⟩
            | none =>
              obtain ⟨r, hr⟩ := contentLinkStep_ok (netloc (feed.feed_url.getD [])) ml item.summaryAnchors hanch
              exact ⟨r, by simp [hn, hfind, hr]⟩
  · intro feed item hmode hurl hmain
    simp [get_link_for_item, hmode, hurl, hmain]

/-- C7 witness: with linked-list mode off the resolver returns the candidate
without raising (here the last truthy alternate href). -/
theorem c7_raises_witness :
    get_link_for_item exFeedTO c6Item = .ok (mainItemLink c6Item) :=
  c7_raises_amended.1 exFeedTO c6Item rfl

/-- C7 counterexample: linked-list mode on, feed URL `http://b.com`, item
with no link at all — `get_link_for_item` raises (`urlparse(None)`), refuting
"never raises, for every feed context and item". -/
theorem c7_raises_counterexample :
    mainItemLink c7Item = none ∧
    get_link_for_item c7Feed c7Item = .error () := by
  decide

theorem foldl_sumStep_stuck (rest : List Str) (acc : Str) (h : 200 < acc.length) :
    rest.foldl (fun a nxt => if a.length + 1 + nxt.length ≤ 200 then a ++ ' ' :: nxt else a) acc
      = acc := by
  induction rest with
  | nil => rfl
  | cons s r ih =>
    simp only [List.foldl_cons]
    rw [if_neg (by omega)]
    exact ih

/-- C8 (amended): the summary accumulator is a left fold that *skips* any
sentence whose addition would exceed 200 characters and keeps scanning, so a
later, shorter sentence is still appended after an overflowing one (the loop
does not stop at the first overflow); the accumulated text is finally
ellipsis-truncated, so every produced summary is at most 200 characters. -/
theorem c8_summary_amended :
    (∀ (s : Str) (rest : List Str),
      accumSentences s rest =
        rest.foldl (fun a nxt => if a.length + 1 + nxt.length ≤ 200 then a ++ ' ' :: nxt else a) s) ∧
    (∀ (l : List Str) (t : Str), buildSummary l = some t → t.length ≤ 200) := by
  constructor
  · intro s rest
    induction rest generalizing s with
    | nil => rfl
    | cons x r ih =>
      rw [accumSentences]
      by_cases h1 : 200 < s.length
      · rw [if_pos h1, List.foldl_cons, if_neg (by omega)]
        exact (foldl_sumStep_stuck r s h1).symm
      · rw [if_neg h1, List.foldl_cons]
        have hlen : (s ++ ' ' :: x).length = s.length + 1 + x.length := by
          simp [List.length_append]
          omega
        by_cases h2 : s.length + 1 + x.length ≤ 200
        · rw [if_pos (by omega : (s ++ ' ' :: x).length ≤ 200), if_pos h2, ih]
        · rw [if_neg (by omega : ¬(s ++ ' ' :: x).length ≤ 200), if_neg h2, ih]
  · intro l t h
    cases l with
    | nil => simp [buildSummary] at h
    | cons s rest =>
      simp only [buildSummary, Option.some.injEq] at h
      rw [← h]
      exact ellipse_text_length _ 200 (by omega)

/-- C8 witness: a single short sentence survives the accumulator and the
produced summary respects the 200-character bound. -/
theorem c8_summary_witness :
    buildSummary [str "one"] = some (str "one") ∧ (str "one").length ≤ 200 :=
  ⟨by decide, c8_summary_amended.2 [str "one"] (str "one") (by decide)⟩

set_option maxRecDepth 8000 in
/-- C8 counterexample: with sentences of 100, 150 and 10 characters, the
150-character sentence overflows the 200 budget, yet the later 10-character
sentence is still appended — refuting "no later sentence is added after the
first one that would overflow". -/
theorem c8_summary_counterexample :
    buildSummary [List.replicate 100 'a', List.replicate 150 'b', List.replicate 10 'c']
      = some (List.replicate 100 'a' ++ ' ' :: List.replicate 10 'c') ∧
    200 < (List.replicate 100 'a' ++ ' ' :: List.replicate 150 'b').length ∧
    (List.replicate 100 'a' ++ ' ' :: List.replicate 10 'c' : Str)
      ≠ List.replicate 100 'a' := by
  refine ⟨by decide, by decide, by decide⟩

/-- C9 (amended): with summary inclusion on, `format_for_adn` appends
`'\n' + summary` to the title iff the *title alone* leaves strictly more
than 40 characters of headroom under the effective budget
(`len(title) < max_chars - 40`) and the summary is non-empty — the combined
length of title, newline and summary plays no part in the decision. -/
theorem c9_append_amended :
    ∀ (feed : Feed) (entry : Entry) (link : Str) (p : Post) (st : Str),
    feed.include_summary = true →
    format_for_adn feed entry link = some p →
    buildSummary entry.summarySentences = some st →
    ∃ body,
      p.text = (if feed.format_mode = FORMAT_MODE.TITLE_THEN_LINK then
          ellipse_text body (maxCharsFor feed link) ++ ' ' :: ellipse_text link 40
        else ellipse_text body (maxCharsFor feed link)) ∧
      (body = entry.title ∨ body = entry.title ++ '\n' :: st) ∧
      (body = entry.title ++ '\n' :: st ↔
        (entry.title.length + 40 < maxCharsFor feed link ∧ st ≠ [])) := by
  intro f e l p st hs hfmt hbs
  unfold format_for_adn at hfmt
  cases hct : composeText f e l with
  | none => rw [hct] at hfmt; exact absurd hfmt (by simp)
  | some t =>
    rw [hct] at hfmt
    obtain ⟨st', hst', ht⟩ := composeText_eq hct
    rw [hs] at hst'
    simp only [if_true] at hst'
    have hst : st' = st := by
      rw [hbs] at hst'
      exact (Option.some.injEq _ _ ▸ hst').symm
    rw [hst] at ht
    have hptext : p.text = t := by
      cases hfmt
      rfl
    have hmc := maxCharsFor_ge f l
    have hcond : (e.title.length < maxCharsFor f l - 40 ∧ st ≠ []) ↔
        (e.title.length + 40 < maxCharsFor f l ∧ st ≠ []) := by
      constructor
      · rintro ⟨h1, h2⟩
        exact ⟨by omega, h2⟩
      · rintro ⟨h1, h2⟩
        exact ⟨by omega, h2⟩
    by_cases hc : e.title.length < maxCharsFor f l - 40 ∧ st ≠ []
    · refine ⟨e.title ++ '\n' :: st, ?_, Or.inr rfl, ?_⟩
      · rw [hptext, ht, if_pos hc]
      · exact ⟨fun _ => hcond.mp hc, fun _ => rfl⟩
    · refine ⟨e.title, ?_, Or.inl rfl, ?_⟩
      · rw [hptext, ht, if_neg hc]
      · constructor
        · intro hb
          have h3 := congrArg List.length hb
          simp [List.length_append] at h3
        · intro hb
          exact absurd (hcond.mpr hb) hc

/-- C9 witness: title `Hi` (headroom far above 40) and a short summary do get
joined by a newline. -/
theorem c9_append_witness : w9Post.text = str "Hi\nShort sentence." := by
  obtain ⟨body, htext, hor, hiff⟩ :=
    c9_append_amended exFeedTOsum w9Entry (str "l") w9Post (str "Short sentence.")
      rfl (by decide) (by decide)
  have hb : body = str "Hi" ++ '\n' :: str "Short sentence." :=
    hiff.mpr ⟨by decide, by decide⟩
  rw [hb] at htext
  exact htext.trans (by decide)

set_option maxRecDepth 8000 in
/-- C9 counterexample: title of 50 characters, summary of 200 — the combined
length 251 leaves only 5 characters of headroom (less than 40), yet the
summary is appended because the code tests only the title's length, so the
claimed iff is false on the code. -/
theorem c9_append_counterexample :
    format_for_adn exFeedTOsum c9Entry (str "l")
      = some ⟨List.replicate 50 'a' ++ '\n' :: List.replicate 200 'b',
              [⟨str "l", List.replicate 50 'a', 0, 50⟩]⟩ ∧
    MAX_CHARS < (List.replicate 50 'a').length + 1 + (List.replicate 200 'b').length + 40 ∧
    buildSummary c9Entry.summarySentences = some (List.replicate 200 'b') ∧
    (List.replicate 50 'a' ++ '\n' :: List.replicate 200 'b' : Str)
      ≠ List.replicate 50 'a' := by
  refine ⟨by decide, by decide, by decide, by decide⟩

theorem parseImagesGo_filterMap (imgs : List ImgTag) :
    parseImagesGo imgs = imgs.filterMap parseImageTag := by
  induction imgs with
  | nil => rfl
  | cons img rest ih =>
    rw [parseImagesGo, List.filterMap_cons]
    cases h : parseImageTag img <;> simp [h, ih]

/-- C10 (amended): `parse_images` returns exactly the images whose
width/height attributes parse as integers after *removing every occurrence
of `'px'`* (the source's `.replace('px','')`, not just a suffix strip), that
have a truthy src and fit the dimension bounds, preserved in document order
(the sort-by-size value is discarded: a larger image listed first stays
first); and the `html` source of `prepare_entry_from_item_remote` picks the
head of that document-ordered list. -/
theorem c10_parse_images_amended :
    (∀ imgs, parse_images imgs = imgs.filterMap parseImageTag) ∧
    (∀ images, html_source_thumbnail false none images = images.head?) ∧
    parse_images [c10BigImg, c10SmallImg] = [c10BigDict, c10SmallDict] ∧
    sortImagesBySize [c10BigDict, c10SmallDict] = [c10SmallDict, c10BigDict] ∧
    c10BigDict ≠ c10SmallDict := by
  refine ⟨?_, ?_, by decide, by decide, by decide⟩
  · intro imgs
    simp only [parse_images]
    exact parseImagesGo_filterMap imgs
  · intro images
    cases images with
    | nil => rfl
    | cons d ds => simp [html_source_thumbnail]

/-- C10 counterexample: the `<img width="2px00" height="500">` tag has a
width that does *not* parse as an integer after stripping a `'px'` suffix,
yet `parse_images` returns it (the source's replace-all turns `2px00` into
`200`) — so "exactly the images whose width/height attributes parse as
integers (after stripping a 'px' suffix)" is false as stated. -/
theorem c10_px_counterexample :
    parse_images [c10PxImg] = [⟨str "http://i", 200, 500⟩] ∧
    stripPxSuffixSpec (str "2px00") = str "2px00" ∧
    pyInt (stripPxSuffixSpec (str "2px00")) = none := by
  refine ⟨by decide, by decide, by decide⟩

theorem format_for_adn_inv {f : Feed} {e : Entry} {l : Str} {p : Post}
    (h : format_for_adn f e l = some p) :
    composeText f e l = some p.text ∧
    p.linkEntities = scanEntities p.text 0 (linkCandidates f e l) := by
  unfold format_for_adn at h
  cases hct : composeText f e l with
  | none => rw [hct] at h; exact absurd h (by simp)
  | some t =>
    rw [hct] at h
    cases h
    exact ⟨rfl, rfl⟩

theorem linkCandidates_single (f : Feed) (e : Entry) (l : Str) :
    ∃ lt, linkCandidates f e l = [(l, lt)] := by
  unfold linkCandidates
  split
  · exact ⟨_, rfl⟩
  · exact ⟨_, rfl⟩

theorem prefix_bound {t sub : Str} {j : Nat} (hpre : sub <+: t.drop j) (hle : j ≤ t.length) :
    j + sub.length ≤ t.length := by
  have h1 := hpre.length_le
  rw [List.length_drop] at h1
  omega

/-- C2: every link entity emitted by the composer marks a substring of the
final text equal to its display text (`text[pos:pos+len] == entity.text`),
the emitted entities are mutually non-overlapping, the final text is fixed
before the entity scan (so dropping an unmatched candidate cannot alter it),
and when the sole candidate's display text is not found the entity list is
empty while the text still stands. -/
theorem c2_entity_invariant (f : Feed) (e : Entry) (l : Str) (p : Post)
    (h : format_for_adn f e l = some p) :
    (∀ ent ∈ p.linkEntities,
      pySlice p.text ent.pos (ent.pos + ent.len) = ent.text ∧
      ent.len = ent.text.length ∧ ent.pos + ent.len ≤ p.text.length) ∧
    List.Pairwise (fun a b => a.pos + a.len ≤ b.pos ∨ b.pos + b.len ≤ a.pos) p.linkEntities ∧
    composeText f e l = some p.text ∧
    (∀ cand ∈ linkCandidates f e l, findFrom p.text cand.2 0 = none → p.linkEntities = []) := by
  obtain ⟨hct, hents⟩ := format_for_adn_inv h
  obtain ⟨lt, hlc⟩ := linkCandidates_single f e l
  rw [hlc] at hents
  cases hf : findFrom p.text lt 0 with
  | none =>
    simp only [scanEntities, hf] at hents
    refine ⟨?_, ?_, hct, ?_⟩
    · intro ent hent
      rw [hents] at hent
      simp at hent
    · rw [hents]
      exact List.Pairwise.nil
    · intro cand hcand hnone
      exact hents
  | some j =>
    simp only [scanEntities, hf] at hents
    obtain ⟨hstart, hpre, hle⟩ := findFrom_spec hf
    have hslice := slice_of_prefix hpre
    have hbound := prefix_bound hpre hle
    refine ⟨?_, ?_, hct, ?_⟩
    · intro ent hent
      rw [hents] at hent
      simp only [List.mem_singleton] at hent
      subst hent
      exact ⟨hslice, rfl, hbound⟩
    · rw [hents]
      exact List.pairwise_singleton _ _
    · intro cand hcand hnone
      rw [hlc] at hcand
      simp only [List.mem_singleton] at hcand
      subst hcand
      rw [hf] at hnone
      exact absurd hnone (by simp)

/-- C2 witness: scenario 1 — `Hello World`, TITLE_ONLY: the emitted entity's
span of the final text equals its display text. -/
theorem c2_entity_invariant_witness :
    pySlice wPostHW.text wEntHW.pos (wEntHW.pos + wEntHW.len) = wEntHW.text :=
  ((c2_entity_invariant exFeedTO wEntryHW exLink wPostHW (by decide)).1 wEntHW (by decide)).1

theorem maxCharsFor_le (f : Feed) (l : Str) : maxCharsFor f l ≤ MAX_CHARS := by
  unfold maxCharsFor
  split
  · exact Nat.sub_le _ _
  · exact Nat.le_refl _

/-- C1 (amended): every composed post's text is at most the network maximum
of 256 characters; in TITLE_THEN_LINK mode the text decomposes as a body of
at most `256 - len(' ' + ellipsed_link)` characters (the effective budget)
followed by exactly `' ' + ellipsed_link`; and the emitted link entity ends
at `len(text)` *provided* the ellipsed link's first occurrence in the text is
the trailing one (the entity scan takes the first occurrence, so a body that
already contains the link display text anchors the entity earlier — see the
counterexample, which also shows the full text exceeds the post-subtraction
budget by exactly the reserved link room). -/
theorem c1_budget_amended (f : Feed) (e : Entry) (l : Str) (p : Post)
    (h : format_for_adn f e l = some p) :
    p.text.length ≤ MAX_CHARS ∧
    (f.format_mode = FORMAT_MODE.TITLE_THEN_LINK →
      ∃ body, p.text = body ++ ' ' :: ellipse_text l 40 ∧
        body.length ≤ MAX_CHARS - (' ' :: ellipse_text l 40).length ∧
        ∀ ent ∈ p.linkEntities,
          findFrom p.text (ellipse_text l 40) 0 = some (body.length + 1) →
          ent.pos + ent.len = p.text.length) := by
  obtain ⟨hct, hents⟩ := format_for_adn_inv h
  obtain ⟨st, hst, ht⟩ := composeText_eq hct
  have hel := ellipse_text_forty l
  have hmcge := maxCharsFor_ge f l
  have hmcle := maxCharsFor_le f l
  have hbl : (ellipse_text (if e.title.length < maxCharsFor f l - 40 ∧ st ≠ [] then
      e.title ++ '\n' :: st else e.title) (maxCharsFor f l)).length ≤ maxCharsFor f l :=
    ellipse_text_length _ _ (by omega)
  by_cases hmode : f.format_mode = FORMAT_MODE.TITLE_THEN_LINK
  · rw [if_pos hmode] at ht
    have hmc_eq : maxCharsFor f l = MAX_CHARS - (' ' :: ellipse_text l 40).length := by
      simp [maxCharsFor, hmode]
    have hlensum : p.text.length =
        (ellipse_text (if e.title.length < maxCharsFor f l - 40 ∧ st ≠ [] then
          e.title ++ '\n' :: st else e.title) (maxCharsFor f l)).length
          + 1 + (ellipse_text l 40).length := by
      rw [ht]
      simp [List.length_append]
      omega
    constructor
    · have h256 : MAX_CHARS = 256 := rfl
      have hg : (' ' :: ellipse_text l 40).length = (ellipse_text l 40).length + 1 := by simp
      omega
    · intro _
      refine ⟨_, ht, ?_, ?_⟩
      · rw [← hmc_eq]
        exact hbl
      · intro ent hent hfind
        have hlc : linkCandidates f e l = [(l, ellipse_text l 40)] := by
          simp [linkCandidates, hmode]
        rw [hlc] at hents
        cases hf : findFrom p.text (ellipse_text l 40) 0 with
        | none =>
          rw [hf] at hfind
          exact absurd hfind (by simp)
        | some j =>
          have hj : j = (ellipse_text (if e.title.length < maxCharsFor f l - 40 ∧ st ≠ [] then
              e.title ++ '\n' :: st else e.title) (maxCharsFor f l)).length + 1 := by
            rw [hf] at hfind
            exact Option.some.inj hfind
          simp only [scanEntities, hf] at hents
          rw [hents] at hent
          simp only [List.mem_singleton] at hent
          subst hent
          simp only
          omega
  · rw [if_neg hmode] at ht
    refine ⟨?_, fun hm => absurd hm hmode⟩
    have : p.text.length ≤ maxCharsFor f l := by
      rw [ht]
      exact hbl
    omega

/-- C1 witness: TITLE_THEN_LINK, title `Hello`, link `http://x.com/a` — the
link display text first occurs exactly after the body and the space, so the
entity ends at `len(text)`. -/
theorem c1_budget_witness : wEnt1.pos + wEnt1.len = wPost1.text.length := by
  obtain ⟨body, hb, _, hent⟩ :=
    (c1_budget_amended exFeedTTL wEntry1 exLink wPost1 (by decide)).2 rfl
  have hblen : body.length = 5 := by
    have h1 := congrArg List.length hb
    have h2 : wPost1.text.length = 20 := by decide
    have h3 : (' ' :: ellipse_text exLink 40).length = 15 := by decide
    rw [h2] at h1
    simp only [List.length_append] at h1
    omega
  refine hent wEnt1 (by decide) ?_
  rw [hblen]
  decide

set_option maxRecDepth 8000 in
/-- C1 counterexample: (a) scenario 2's 300-`A` title under TITLE_THEN_LINK
yields a final text of 256 characters, strictly more than the effective
budget `256 - len(' ' + ellipsed_link) = 241`, so `len(text) ≤
effective_budget` is false as claimed; (b) a title equal to the link display
text makes the entity scan anchor the link entity at position 0, so
`pos + len = 14 ≠ 29 = len(text)`. -/
theorem c1_budget_counterexample :
    format_for_adn exFeedTTL cexEntryA exLink = some cexPostA ∧
    cexPostA.text.length = 256 ∧
    MAX_CHARS - (' ' :: ellipse_text exLink 40).length = 241 ∧
    format_for_adn exFeedTTL cexEntryB exLink = some cexPostB ∧
    cexPostB.linkEntities = [⟨exLink, exLink, 0, 14⟩] ∧
    (0 + 14 : Nat) ≠ cexPostB.text.length := by
  refine ⟨by decide, by decide, by decide, by decide, by decide, by decide⟩

/-- C3 (amended): rendering a composed post with a non-empty entity list
reconstructs, inside a single `<span>` container, the gap text before the
entity, an anchor whose href is the entity's url and whose content is the
entity's display text (sliced at exactly the entity's character offsets of
the plain text), and the trailing gap — but the newline-to-break conversion
is applied to the *whole* joined HTML, so it also rewrites newlines inside
the anchor's href and display text (they appear as `nlToBr url` /
`nlToBr text`; verbatim exactly when they contain no newline — see the
counterexample for a newline-containing display text). -/
theorem c3_roundtrip_amended (f : Feed) (e : Entry) (l : Str) (p : Post)
    (h : format_for_adn f e l = some p) (hne : p.linkEntities ≠ []) :
    ∃ ent, p.linkEntities = [ent] ∧ ent.url = l ∧
      pySlice p.text ent.pos (ent.pos + ent.len) = ent.text ∧
      build_html_from_post p =
        str "<span>" ++ (nlToBr (p.text.take ent.pos) ++
        (str "<a href='" ++ (nlToBr ent.url ++ (str "' target='_blank'>" ++
        (nlToBr ent.text ++ (str "</a>" ++
        (nlToBr (p.text.drop (ent.pos + ent.len)) ++ str "</span>")))))))  := by
  obtain ⟨hct, hents⟩ := format_for_adn_inv h
  obtain ⟨lt, hlc⟩ := linkCandidates_single f e l
  rw [hlc] at hents
  cases hf : findFrom p.text lt 0 with
  | none =>
    simp only [scanEntities, hf] at hents
    exact absurd hents hne
  | some j =>
    simp only [scanEntities, hf] at hents
    obtain ⟨hstart, hpre, hle⟩ := findFrom_spec hf
    have hslice := slice_of_prefix hpre
    refine ⟨⟨l, lt, j, lt.length⟩, hents, rfl, hslice, ?_⟩
    have hmap : buildEntityMap p = [((j, lt.length), entityAnchor p ⟨l, lt, j, lt.length⟩)] := by
      simp [buildEntityMap, hents, mapInsert]
    have hget : mapGet [((j, lt.length), entityAnchor p ⟨l, lt, j, lt.length⟩)] (j, lt.length)
        = entityAnchor p ⟨l, lt, j, lt.length⟩ := by simp [mapGet]
    have hgap : (if (0 : Nat) ≠ j then pySlice p.text 0 j else ([] : Str)) = p.text.take j := by
      by_cases hj : j = 0
      · rw [hj]
        simp
      · rw [if_pos (Ne.symm hj)]
        simp [pySlice]
    have l2 : nlToBr (str "<a href='") = str "<a href='" := by decide
    have l3 : nlToBr (str "' target='_blank'>") = str "' target='_blank'>" := by decide
    have l4 : nlToBr (str "</a>") = str "</a>" := by decide
    rw [build_html_from_post, hmap]
    have hks : sortKeys ([((j, lt.length), entityAnchor p ⟨l, lt, j, lt.length⟩)].map Prod.fst)
        = [(j, lt.length)] := by simp [sortKeys, insertKey]
    rw [hks]
    simp [htmlPieces, mapGet, hgap, entityAnchor, hslice, nlToBr_append, l2, l3, l4,
      List.append_assoc]

/-- C3 witness: scenario 1's post renders to a single span wrapping one
anchor with the title as its content and the link as its href. -/
theorem c3_roundtrip_witness :
    build_html_from_post wPostHW
      = str "<span><a href='http://x.com/a' target='_blank'>Hello World</a></span>" := by
  obtain ⟨ent, hents, hurl, hsl, hhtml⟩ :=
    c3_roundtrip_amended exFeedTO wEntryHW exLink wPostHW (by decide) (by decide)
  have hent : ent = wEntHW := by
    have h1 : wPostHW.linkEntities = [wEntHW] := by decide
    rw [h1] at hents
    exact (List.cons.injEq _ _ _ _ ▸ hents).1.symm
  rw [hhtml, hent]
  decide

/-- C3 counterexample: a composed post whose entity display text contains a
newline (`a\nb`): the reconstructor converts it to `a<br>b` inside the
anchor, so the anchor does not wrap the entity's display text verbatim, and
the claimed rendering differs from the actual output. -/
theorem c3_roundtrip_counterexample :
    format_for_adn exFeedTO c3nEntry (str "u") = some c3nPost ∧
    build_html_from_post c3nPost = str "<span><a href='u' target='_blank'>a<br>b</a></span>" ∧
    str "<span>" ++ (str "<a href='u' target='_blank'>" ++ (str "a\nb" ++ (str "</a>" ++ str "</span>")))
      ≠ build_html_from_post c3nPost := by
  refine ⟨by decide, by decide, by decide⟩

end Pourover
